import Mathlib

/-!
Shallow embedding of the fpe-pii-detector imageset batch orchestration
pipeline (detect_fpe_imageset.py, utils.py, db.py), together with proofs
of the behavioural properties of its batch scheduler, worker-pool drain,
status state machine and detection-format conversion.

External collaborators (database, S3, the MegaDetector model, the thread
pool's nondeterministic completion order) are modelled as oracles passed
in explicitly:
* the detector is a function from an s3 filename to an
  exceptional detection result;
* each fallible I/O call (status update, image fetch, detector load,
  S3 save, database save) gets a success/failure oracle in an
  environment record;
* the completion order of the futures of one batch is an arbitrary
  reordering function, constrained in the theorems to return a
  permutation of its input, exactly as concurrent.futures.as_completed
  yields each submitted future exactly once in some order.

Exceptions are modelled with Except String; a raised exception at one
layer propagates to the caller unless the source catches it there.
-/

set_option autoImplicit false
set_option linter.unusedVariables false

deriving instance DecidableEq for Except

namespace FpePii

/-- Imageset pii_status values written by update_imageset_pii_status. -/
inductive Status where
  | PENDING
  | PROCESSING
  | DONE
  | FAILED
deriving DecidableEq, Repr

/-- One row of the images table as used by process_image: the image id
and the Bucket/Key of its full-resolution S3 object. -/
structure Row where
  id : Nat
  bucket : String
  key : String
deriving DecidableEq, Repr

/-- One raw MegaDetector detection as read by
convert_md_detections_to_fpe_format: class_id, confidence and the
integer bounding box. Confidence is modelled as a rational. -/
structure MDDetection where
  class_id : Nat
  confidence : ℚ
  xyxy : List Int
deriving DecidableEq, Repr

/-- One detection in FPE format: category (the integer class id),
confidence and bbox. -/
structure FpeDetection where
  category : Nat
  conf : ℚ
  bbox : List Int
deriving DecidableEq, Repr

/-- The max_conf dictionary with its three fixed keys. -/
structure MaxConf where
  animal : ℚ
  person : ℚ
  vehicle : ℚ
deriving DecidableEq, Repr

/-- Result of convert_md_detections_to_fpe_format. -/
structure FpeFormat where
  detections : List FpeDetection
  max_conf : MaxConf
deriving DecidableEq, Repr

/-- Result of process_image: the FPE-format payload augmented with the
image id and the basename of the s3 filename. -/
structure ProcResult where
  image_id : Nat
  file : String
  payload : FpeFormat
deriving DecidableEq, Repr

/-- CLASS_NAMES = \x7b0: "animal", 1: "person", 2: "vehicle"\x7d; a lookup
of any other key raises KeyError, modelled as none. -/
def CLASS_NAMES : Nat → Option String
  | 0 => some "animal"
  | 1 => some "person"
  | 2 => some "vehicle"
  | _ => none

/-- Read the max_conf entry for a category label. -/
def getConf (m : MaxConf) (label : String) : ℚ :=
  if label = "animal" then m.animal
  else if label = "person" then m.person
  else m.vehicle

/-- Write the max_conf entry for a category label. -/
def setConf (m : MaxConf) (label : String) (v : ℚ) : MaxConf :=
  if label = "animal" then { m with animal := v }
  else if label = "person" then { m with person := v }
  else { m with vehicle := v }

/-- The detection dict built for index i of the loop in
convert_md_detections_to_fpe_format: category, conf and bbox taken from
the MegaDetector detection. -/
def mdToFpe (d : MDDetection) : FpeDetection :=
  ⟨d.class_id, d.confidence, d.xyxy⟩

/-- One iteration of the loop in convert_md_detections_to_fpe_format:
build the FPE detection, append it, and fold its confidence into the
max_conf entry of its category; an unknown class id raises. -/
def convStep (acc : List FpeDetection × MaxConf) (d : MDDetection) :
    Except String (List FpeDetection × MaxConf) :=
  let det : FpeDetection := mdToFpe d
  match CLASS_NAMES det.category with
  | none => .error "KeyError"
  | some label =>
      .ok (acc.1 ++ [det], setConf acc.2 label (max (getConf acc.2 label) det.conf))

/-- convert_md_detections_to_fpe_format (utils.py): iterate over the
detections in order, collecting the converted detections and the
per-category maximum confidences starting from 0 for each of the three
categories. -/
def convert_md_detections_to_fpe_format (input : List MDDetection) :
    Except String FpeFormat := do
  let (dets, mc) ← input.foldlM convStep ([], ⟨0, 0, 0⟩)
  return ⟨dets, mc⟩

/-- os.path.basename for the forward-slash paths used here: the part of
the string after the last slash. -/
def basename (s : String) : String :=
  String.mk (s.data.foldl (fun acc c => if c = '/' then [] else acc ++ [c]) [])

/-- process_image (detect_fpe_imageset.py): build the s3 filename from
the row, run the detector on it, and augment the result with image_id
and file. The detector (detect_image with the loaded model and the
min_confidence argument applied) is an oracle from filename to result;
its exception propagates. -/
def process_image (det : String → Except String FpeFormat) (row : Row) :
    Except String ProcResult :=
  let s3_filename := "s3://" ++ row.bucket ++ "/" ++ row.key
  match det s3_filename with
  | .error e => .error e
  | .ok payload => .ok ⟨row.id, basename s3_filename, payload⟩

/-- Observable events of one run, in program order: status update calls
with their success flag, the images fetch, the detector load, per-image
work (sequential detect calls, parallel submissions and future
completions with their success flag), the two persistence calls with
their success flags, and the dry-run logging of the results. -/
inductive Ev where
  | updateStatus (s : Status) (ok : Bool)
  | fetchImages
  | loadDetector
  | detect (id : Nat)
  | submit (id : Nat)
  | taskDone (id : Nat) (ok : Bool)
  | saveS3 (ok : Bool)
  | saveDb (ok : Bool)
  | logResults
deriving DecidableEq, Repr

/-- process_images_in_sequence (detect_fpe_imageset.py): process each
row in order, appending each result; an exception from process_image
propagates immediately, abandoning the loop. Returns the outcome
together with the trace of detect calls made. -/
def process_images_in_sequence (det : String → Except String FpeFormat) :
    List Row → Except String (List ProcResult) × List Ev
  | [] => (.ok [], [])
  | r :: rs =>
      match process_image det r with
      | .error e => (.error e, [.detect r.id])
      | .ok x =>
          let rest := process_images_in_sequence det rs
          ((rest.1).map (fun l => x :: l), .detect r.id :: rest.2)

/-- Split a list into consecutive chunks of size b (the final chunk may
be smaller), as range(0, n, b) with df.iloc slicing does for b ≥ 1. -/
def chunkList {α : Type} (b : Nat) (l : List α) : List (List α) :=
  if hb : b = 0 then []
  else
    match l with
    | [] => []
    | x :: xs => (x :: xs).take b :: chunkList b ((x :: xs).drop b)
termination_by l.length
decreasing_by
  simp only [List.length_drop, List.length_cons]
  omega

/-- One batch of process_images_in_parallel: submit every row of the
batch, then drain the futures in completion order (the sched oracle).
A future that raised is counted as completed but appends nothing to the
results; a successful future appends its result. Returns the results in
completion order and the trace (all submissions, then one completion
event per future). -/
def runBatch (det : String → Except String FpeFormat)
    (sched : List (Nat × Except String ProcResult) → List (Nat × Except String ProcResult))
    (batch : List Row) : List ProcResult × List Ev :=
  let futures := batch.map (fun r => (r.id, process_image det r))
  let completed := sched futures
  (completed.filterMap (fun p => p.2.toOption),
   batch.map (fun r => Ev.submit r.id) ++ completed.map (fun p => Ev.taskDone p.1 p.2.isOk))

/-- process_images_in_parallel (detect_fpe_imageset.py): slice the image
list into batches of batch_size with range(0, n_images, batch_size) and
process the batches strictly in order, draining each batch's pool before
the next batch starts. A step of 0 raises ValueError from range; a
negative step makes range empty, so no batch runs. The workers argument
bounds concurrency only and does not affect the returned value. -/
def process_images_in_parallel (det : String → Except String FpeFormat)
    (sched : List (Nat × Except String ProcResult) → List (Nat × Except String ProcResult))
    (images : List Row) (workers batchSize : Int) :
    Except String (List ProcResult) × List Ev :=
  if batchSize = 0 then (.error "ValueError: range() arg 3 must not be zero", [])
  else if batchSize < 0 then (.ok [], [])
  else
    let cs := chunkList batchSize.toNat images
    (.ok ((cs.map (fun b => (runBatch det sched b).1)).flatten),
     (cs.map (fun b => (runBatch det sched b).2)).flatten)

/-- The command-line arguments of run that the orchestration inspects.
workers defaults to None; batch_size defaults to 100. -/
structure RunArgs where
  imageset_id : Nat
  dry_run : Bool
  workers : Option Int
  batch_size : Int
deriving DecidableEq, Repr

/-- Oracles for the external collaborators of run: the imageset fetch
(which may raise, or return no row), the per-status success of
update_imageset_pii_status, the images fetch, the detector load, the
detector itself, the two persistence calls, and the completion order of
each parallel batch. -/
structure Env where
  fetchImageset : Except String (Option Nat)
  statusOk : Status → Bool
  fetchImages : Except String (List Row)
  loadDetectorOk : Bool
  det : String → Except String FpeFormat
  s3Ok : Bool
  dbOk : Bool
  sched : List (Nat × Except String ProcResult) → List (Nat × Except String ProcResult)

/-- The processing dispatch of run (lines 258-269): sequential when
workers is None or non-positive, else parallel with the worker count and
batch size both clamped to the number of images. -/
def chooseProcessing (args : RunArgs) (env : Env) (images : List Row) :
    Except String (List ProcResult) × List Ev :=
  match args.workers with
  | none => process_images_in_sequence env.det images
  | some w =>
      if w ≤ 0 then process_images_in_sequence env.det images
      else
        process_images_in_parallel env.det env.sched images
          (min w (images.length : Int)) (min args.batch_size (images.length : Int))

/-- The except-handler of run (lines 290-297): log, then — unless this
is a dry run — set the status to FAILED (the imageset variable is always
bound inside the try block) and return 1. If the FAILED update itself
raises, that exception propagates out of run. -/
def runHandler (args : RunArgs) (env : Env) (tr : List Ev) :
    Except String Nat × List Ev :=
  if args.dry_run then (.ok 1, tr)
  else if env.statusOk .FAILED then (.ok 1, tr ++ [.updateStatus .FAILED true])
  else (.error "update FAILED raised", tr ++ [.updateStatus .FAILED false])

/-- run (detect_fpe_imageset.py): fetch the imageset (its failure, and a
missing imageset, abort before the try block, so no status is touched);
then, inside the try block: set PROCESSING unless dry-run, fetch the
images, fail on an empty list, load the detector, process sequentially
or in parallel, and either persist to S3 and the database and set DONE,
or (dry run) log the results; any exception in the try block goes to
runHandler. Returns run's exit code (or its escaping exception) and the
event trace. -/
def runModel (args : RunArgs) (env : Env) : Except String Nat × List Ev :=
  match env.fetchImageset with
  | .error e => (.error e, [])
  | .ok none => (.error "Imageset not found", [])
  | .ok (some _iset) =>
      let t1 : List Ev :=
        if args.dry_run then [] else [.updateStatus .PROCESSING (env.statusOk .PROCESSING)]
      if ¬args.dry_run ∧ ¬env.statusOk .PROCESSING then runHandler args env t1
      else
        let t2 := t1 ++ [.fetchImages]
        match env.fetchImages with
        | .error _ => runHandler args env t2
        | .ok images =>
            if images.isEmpty then runHandler args env t2
            else
              let t3 := t2 ++ [.loadDetector]
              if ¬env.loadDetectorOk then runHandler args env t3
              else
                match chooseProcessing args env images with
                | (.error _, tp) => runHandler args env (t3 ++ tp)
                | (.ok results, tp) =>
                    let t4 := t3 ++ tp
                    if args.dry_run then (.ok 0, t4 ++ [.logResults])
                    else
                      let t5 := t4 ++ [.saveS3 env.s3Ok]
                      if ¬env.s3Ok then runHandler args env t5
                      else
                        let t6 := t5 ++ [.saveDb env.dbOk]
                        if ¬env.dbOk then runHandler args env t6
                        else
                          if env.statusOk .DONE then
                            (.ok 0, t6 ++ [.updateStatus .DONE true])
                          else runHandler args env (t6 ++ [.updateStatus .DONE false])

/-- The statuses durably written during a run: the successful
update_imageset_pii_status calls, in order. -/
def writtenStatuses (tr : List Ev) : List Status :=
  tr.filterMap (fun e =>
    match e with
    | .updateStatus s true => some s
    | _ => none)

theorem isOk_map {ε α β : Type} (f : α → β) (e : Except ε α) :
    (e.map f).isOk = e.isOk := by
  cases e <;> rfl

theorem seq_isOk (det : String → Except String FpeFormat) (rs : List Row) :
    (process_images_in_sequence det rs).1.isOk
      = rs.all (fun r => (process_image det r).isOk) := by
  induction rs with
  | nil => rfl
  | cons r rs ih =>
      simp only [process_images_in_sequence, List.all_cons]
      cases h : process_image det r with
      | error e => rfl
      | ok x =>
          show (Except.map _ _).isOk = _
          rw [isOk_map, ih]
          rfl

theorem seq_ok_map (det : String → Except String FpeFormat) (rs : List Row)
    (l : List ProcResult) (h : (process_images_in_sequence det rs).1 = .ok l) :
    rs.map (process_image det) = l.map Except.ok := by
  induction rs generalizing l with
  | nil =>
      simp only [process_images_in_sequence] at h
      cases h
      rfl
  | cons r rs ih =>
      simp only [process_images_in_sequence] at h
      cases hr : process_image det r with
      | error e => rw [hr] at h; exact absurd h (by simp)
      | ok x =>
          rw [hr] at h
          cases hrest : (process_images_in_sequence det rs).1 with
          | error e => rw [hrest] at h; exact absurd h (by simp [Except.map])
          | ok l' =>
              rw [hrest] at h
              simp only [Except.map] at h
              cases h
              simp [hr, ih l' hrest]

theorem seq_ok_trace (det : String → Except String FpeFormat) (rs : List Row)
    (l : List ProcResult) (h : (process_images_in_sequence det rs).1 = .ok l) :
    (process_images_in_sequence det rs).2 = rs.map (fun r => Ev.detect r.id) := by
  induction rs generalizing l with
  | nil => rfl
  | cons r rs ih =>
      simp only [process_images_in_sequence] at h ⊢
      cases hr : process_image det r with
      | error e => rw [hr] at h; exact absurd h (by simp)
      | ok x =>
          rw [hr] at h
          cases hrest : (process_images_in_sequence det rs).1 with
          | error e => rw [hrest] at h; exact absurd h (by simp [Except.map])
          | ok l' => simp [ih l' hrest]

theorem seq_trace_shape (det : String → Except String FpeFormat) (rs : List Row) :
    ∀ e ∈ (process_images_in_sequence det rs).2, ∃ id, e = Ev.detect id := by
  induction rs with
  | nil => intro e he; exact absurd he (by simp [process_images_in_sequence])
  | cons r rs ih =>
      intro e he
      simp only [process_images_in_sequence] at he
      cases hr : process_image det r with
      | error _ =>
          rw [hr] at he
          simp only [List.mem_singleton] at he
          exact ⟨r.id, he⟩
      | ok x =>
          rw [hr] at he
          simp only [List.mem_cons] at he
          rcases he with he | he
          · exact ⟨r.id, he⟩
          · exact ih e he

theorem seq_error_of_exists (det : String → Except String FpeFormat) (rs : List Row)
    (h : ∃ r ∈ rs, (process_image det r).isOk = false) :
    (process_images_in_sequence det rs).1.isOk = false := by
  rw [seq_isOk, List.all_eq_false]
  rcases h with ⟨r, hr, hfail⟩
  exact ⟨r, hr, by simp [hfail]⟩

theorem chunkList_flatten {α : Type} (b : Nat) (hb : b ≠ 0) (l : List α) :
    (chunkList b l).flatten = l := by
  induction l using chunkList.induct b with
  | case1 x h => exact absurd h hb
  | case2 h => simp [chunkList]
  | case3 h x xs ih =>
      rw [chunkList]
      simp only [h, dif_neg, not_false_iff, List.flatten_cons, ih]
      exact List.take_append_drop b (x :: xs)

theorem chunkList_nil_iff {α : Type} (b : Nat) (hb : b ≠ 0) (l : List α) :
    chunkList b l = [] ↔ l = [] := by
  cases l with
  | nil => simp [chunkList]
  | cons x xs => rw [chunkList]; simp [hb]

theorem mem_chunkList {α : Type} (b : Nat) (hb : b ≠ 0) (l : List α)
    (c : List α) (hc : c ∈ chunkList b l) : c.length ≤ b ∧ c ≠ [] := by
  induction l using chunkList.induct b with
  | case1 x h => exact absurd h hb
  | case2 h => exact absurd hc (by simp [chunkList])
  | case3 h x xs ih =>
      rw [chunkList] at hc
      simp only [h, dif_neg, not_false_iff, List.mem_cons] at hc
      rcases hc with rfl | hc
      · refine ⟨by simp, ?_⟩
        simp [List.take_eq_nil_iff, hb]
      · exact ih hc

theorem chunkList_length (b : Nat) {α : Type} (hb : b ≠ 0) (l : List α) :
    (chunkList b l).length = (l.length + b - 1) / b := by
  induction l using chunkList.induct b with
  | case1 x h => exact absurd h hb
  | case2 h =>
      rw [chunkList]
      simp only [h, dif_neg, not_false_iff, List.length_nil]
      rw [Nat.div_eq_of_lt (by omega)]
  | case3 h x xs ih =>
      rw [chunkList.eq_def]
      simp only [h, dif_neg, not_false_iff, List.length_cons, List.length_drop] at ih ⊢
      rw [ih]
      have h1 : xs.length + 1 + b - 1 = (xs.length + 1 - 1) + b := by omega
      rw [h1, Nat.add_div_right _ (Nat.pos_of_ne_zero hb)]
      rcases Nat.lt_or_ge xs.length b with hlt | hge
      · have e1 : xs.length + 1 - b = 0 := by omega
        rw [e1]
        rw [Nat.div_eq_of_lt (by omega), Nat.div_eq_of_lt (by omega)]
      · have e1 : xs.length + 1 - b + b - 1 = xs.length + 1 - 1 := by omega
        rw [e1]

theorem chunkList_getD_length {α : Type} (b : Nat) (hb : b ≠ 0) (l : List α)
    (i : Nat) (h1 : i + 1 < (chunkList b l).length) :
    ((chunkList b l).getD i []).length = b := by
  induction l using chunkList.induct b generalizing i with
  | case1 x h => exact absurd h hb
  | case2 h => rw [chunkList] at h1; simp [h] at h1
  | case3 h x xs ih =>
      rw [chunkList] at h1 ⊢
      simp only [h, dif_neg, not_false_iff, List.length_cons] at h1 ⊢
      cases i with
      | zero =>
          simp only [List.getD_cons_zero]
          have hne : chunkList b ((x :: xs).drop b) ≠ [] := by
            intro hnil
            rw [hnil] at h1
            simp at h1
          have hd : (x :: xs).drop b ≠ [] :=
            fun hdn => hne ((chunkList_nil_iff b hb _).mpr hdn)
          have hlen : b < (x :: xs).length := by
            rcases Nat.lt_or_ge b (x :: xs).length with hlt | hge
            · exact hlt
            · exact absurd (List.drop_eq_nil_of_le hge) hd
          simp only [List.length_take]
          omega
      | succ j =>
          simp only [List.getD_cons_succ]
          exact ih j (by omega)

theorem length_toOption_filterMap (det : String → Except String FpeFormat) (c : List Row) :
    (c.filterMap (fun r => (process_image det r).toOption)).length
      = (c.filter (fun r => (process_image det r).isOk)).length := by
  induction c with
  | nil => rfl
  | cons r rs ih =>
      simp only [List.filterMap_cons, List.filter_cons]
      cases h : process_image det r with
      | error e => simpa [Except.toOption, Except.isOk, Except.toBool] using ih
      | ok x => simpa [Except.toOption, Except.isOk, Except.toBool] using ih

theorem runBatch_length (det : String → Except String FpeFormat)
    (sched : List (Nat × Except String ProcResult) → List (Nat × Except String ProcResult))
    (hsched : ∀ fl, List.Perm (sched fl) fl) (c : List Row) :
    (runBatch det sched c).1.length
      = (c.filter (fun r => (process_image det r).isOk)).length := by
  unfold runBatch
  have hperm :=
    (hsched (c.map (fun r => (r.id, process_image det r)))).filterMap
      (fun p => p.2.toOption)
  rw [hperm.length_eq, List.filterMap_map]
  exact length_toOption_filterMap det c

theorem runBatch_trace_shape (det : String → Except String FpeFormat)
    (sched : List (Nat × Except String ProcResult) → List (Nat × Except String ProcResult))
    (c : List Row) :
    ∀ e ∈ (runBatch det sched c).2,
      (∃ id, e = Ev.submit id) ∨ ∃ id ok, e = Ev.taskDone id ok := by
  intro e he
  unfold runBatch at he
  simp only [List.mem_append, List.mem_map] at he
  rcases he with ⟨r, hr, rfl⟩ | ⟨p, hp, rfl⟩
  · exact Or.inl ⟨r.id, rfl⟩
  · exact Or.inr ⟨p.1, p.2.isOk, rfl⟩

theorem runBatch_taskDone_mem (det : String → Except String FpeFormat)
    (sched : List (Nat × Except String ProcResult) → List (Nat × Except String ProcResult))
    (hsched : ∀ fl, List.Perm (sched fl) fl) (c : List Row) (r : Row) (hr : r ∈ c) :
    ∃ ok, Ev.taskDone r.id ok ∈ (runBatch det sched c).2 := by
  refine ⟨(process_image det r).isOk, ?_⟩
  unfold runBatch
  simp only [List.mem_append]
  right
  refine List.mem_map.mpr ⟨(r.id, process_image det r), ?_, rfl⟩
  exact ((hsched _).mem_iff).mpr (List.mem_map.mpr ⟨r, hr, rfl⟩)

theorem runBatch_submit_mem (det : String → Except String FpeFormat)
    (sched : List (Nat × Except String ProcResult) → List (Nat × Except String ProcResult))
    (c : List Row) (r : Row) (hr : r ∈ c) :
    Ev.submit r.id ∈ (runBatch det sched c).2 := by
  unfold runBatch
  simp only [List.mem_append]
  exact Or.inl (List.mem_map.mpr ⟨r, hr, rfl⟩)

theorem parallel_ok (det : String → Except String FpeFormat)
    (sched : List (Nat × Except String ProcResult) → List (Nat × Except String ProcResult))
    (images : List Row) (w b : Int) (hb : 1 ≤ b) :
    process_images_in_parallel det sched images w b
      = (.ok (((chunkList b.toNat images).map (fun c => (runBatch det sched c).1)).flatten),
         ((chunkList b.toNat images).map (fun c => (runBatch det sched c).2)).flatten) := by
  unfold process_images_in_parallel
  rw [if_neg (by omega), if_neg (by omega)]

theorem length_filter_flatten {α : Type} (p : α → Bool) (L : List (List α)) :
    (L.flatten.filter p).length = (L.map (fun c => (c.filter p).length)).sum := by
  induction L with
  | nil => rfl
  | cons c L ih =>
      simp [List.filter_append, ih]
      exact congrArg List.sum (List.map_congr_left fun x _ => rfl)

theorem parallel_length (det : String → Except String FpeFormat)
    (sched : List (Nat × Except String ProcResult) → List (Nat × Except String ProcResult))
    (hsched : ∀ fl, List.Perm (sched fl) fl)
    (images : List Row) (w b : Int) (hb : 1 ≤ b) :
    ∃ res, (process_images_in_parallel det sched images w b).1 = .ok res ∧
      res.length = (images.filter (fun r => (process_image det r).isOk)).length := by
  have hbn : b.toNat ≠ 0 := by omega
  refine ⟨_, by rw [parallel_ok det sched images w b hb], ?_⟩
  rw [List.length_flatten, List.map_map]
  have h1 : (chunkList b.toNat images).map
        ((fun l => l.length) ∘ fun c => (runBatch det sched c).1)
      = (chunkList b.toNat images).map
        (fun c => (c.filter (fun r => (process_image det r).isOk)).length) :=
    List.map_congr_left (fun c _ => runBatch_length det sched hsched c)
  rw [h1]
  conv_rhs => rw [← chunkList_flatten b.toNat hbn images]
  rw [length_filter_flatten]

theorem parallel_trace_shape (det : String → Except String FpeFormat)
    (sched : List (Nat × Except String ProcResult) → List (Nat × Except String ProcResult))
    (images : List Row) (w b : Int) :
    ∀ e ∈ (process_images_in_parallel det sched images w b).2,
      (∃ id, e = Ev.submit id) ∨ ∃ id ok, e = Ev.taskDone id ok := by
  intro e he
  unfold process_images_in_parallel at he
  by_cases h0 : b = 0
  · rw [if_pos h0] at he
    simp at he
  · rw [if_neg h0] at he
    by_cases hneg : b < 0
    · rw [if_pos hneg] at he
      simp at he
    · rw [if_neg hneg] at he
      simp only [List.mem_flatten, List.mem_map] at he
      rcases he with ⟨t, ⟨c, hc, rfl⟩, het⟩
      exact runBatch_trace_shape det sched c e het

theorem chooseProcessing_trace_shape (args : RunArgs) (env : Env) (images : List Row) :
    ∀ e ∈ (chooseProcessing args env images).2,
      (∃ id, e = Ev.detect id) ∨ (∃ id, e = Ev.submit id) ∨
        ∃ id ok, e = Ev.taskDone id ok := by
  intro e he
  unfold chooseProcessing at he
  cases hw : args.workers with
  | none =>
      rw [hw] at he
      rcases seq_trace_shape env.det images e he with ⟨id, rfl⟩
      exact Or.inl ⟨id, rfl⟩
  | some w =>
      rw [hw] at he
      simp only [] at he
      by_cases hle : w ≤ 0
      · rw [if_pos hle] at he
        rcases seq_trace_shape env.det images e he with ⟨id, rfl⟩
        exact Or.inl ⟨id, rfl⟩
      · rw [if_neg hle] at he
        exact Or.inr (parallel_trace_shape env.det env.sched images _ _ e he)

theorem cp_no_updateStatus (args : RunArgs) (env : Env) (images : List Row)
    (s : Status) (ok : Bool) :
    Ev.updateStatus s ok ∉ (chooseProcessing args env images).2 := by
  intro hmem
  rcases chooseProcessing_trace_shape args env images _ hmem with ⟨id, h⟩ | ⟨id, h⟩ | ⟨id, o, h⟩ <;>
    exact absurd h (by simp)

theorem cp_no_saveS3 (args : RunArgs) (env : Env) (images : List Row) (ok : Bool) :
    Ev.saveS3 ok ∉ (chooseProcessing args env images).2 := by
  intro hmem
  rcases chooseProcessing_trace_shape args env images _ hmem with ⟨id, h⟩ | ⟨id, h⟩ | ⟨id, o, h⟩ <;>
    exact absurd h (by simp)

theorem cp_no_saveDb (args : RunArgs) (env : Env) (images : List Row) (ok : Bool) :
    Ev.saveDb ok ∉ (chooseProcessing args env images).2 := by
  intro hmem
  rcases chooseProcessing_trace_shape args env images _ hmem with ⟨id, h⟩ | ⟨id, h⟩ | ⟨id, o, h⟩ <;>
    exact absurd h (by simp)

theorem cp_written (args : RunArgs) (env : Env) (images : List Row) :
    writtenStatuses (chooseProcessing args env images).2 = [] := by
  rw [writtenStatuses, List.filterMap_eq_nil_iff]
  intro e he
  rcases chooseProcessing_trace_shape args env images e he with ⟨id, rfl⟩ | ⟨id, rfl⟩ | ⟨id, o, rfl⟩ <;>
    rfl

@[simp]
theorem writtenStatuses_append (a c : List Ev) :
    writtenStatuses (a ++ c) = writtenStatuses a ++ writtenStatuses c := by
  simp [writtenStatuses]

@[simp]
theorem writtenStatuses_nil : writtenStatuses [] = [] := rfl

@[simp]
theorem writtenStatuses_updateStatus (s : Status) (ok : Bool) (tr : List Ev) :
    writtenStatuses (Ev.updateStatus s ok :: tr)
      = if ok then s :: writtenStatuses tr else writtenStatuses tr := by
  cases ok <;> rfl

@[simp]
theorem writtenStatuses_fetchImages (tr : List Ev) :
    writtenStatuses (Ev.fetchImages :: tr) = writtenStatuses tr := rfl

@[simp]
theorem writtenStatuses_loadDetector (tr : List Ev) :
    writtenStatuses (Ev.loadDetector :: tr) = writtenStatuses tr := rfl

@[simp]
theorem writtenStatuses_saveS3 (ok : Bool) (tr : List Ev) :
    writtenStatuses (Ev.saveS3 ok :: tr) = writtenStatuses tr := rfl

@[simp]
theorem writtenStatuses_saveDb (ok : Bool) (tr : List Ev) :
    writtenStatuses (Ev.saveDb ok :: tr) = writtenStatuses tr := rfl

@[simp]
theorem writtenStatuses_logResults (tr : List Ev) :
    writtenStatuses (Ev.logResults :: tr) = writtenStatuses tr := rfl

theorem runModel_nondry (args : RunArgs) (env : Env) (hd : args.dry_run = false) :
    ((runModel args env).1 = .ok 0 →
        writtenStatuses (runModel args env).2 = [Status.PROCESSING, Status.DONE]) ∧
    ((runModel args env).1 = .ok 1 → Ev.fetchImages ∈ (runModel args env).2 →
        writtenStatuses (runModel args env).2 = [Status.PROCESSING, Status.FAILED]) ∧
    writtenStatuses (runModel args env).2 ∈
      [[], [Status.FAILED], [Status.PROCESSING], [Status.PROCESSING, Status.DONE],
        [Status.PROCESSING, Status.FAILED]] ∧
    (Ev.updateStatus Status.DONE true ∈ (runModel args env).2 →
        env.s3Ok = true ∧ env.dbOk = true ∧
        ∃ l, env.fetchImages = .ok l ∧ l.isEmpty = false) ∧
    ((Ev.saveS3 false ∈ (runModel args env).2 ∨ Ev.saveDb false ∈ (runModel args env).2) →
        Ev.updateStatus Status.DONE true ∉ (runModel args env).2 ∧
        Ev.updateStatus Status.FAILED (env.statusOk Status.FAILED) ∈ (runModel args env).2) := by
  unfold runModel
  cases hf : env.fetchImageset with
  | error e => simp
  | ok op =>
  cases op with
  | none => simp
  | some k =>
  simp only [hd, Bool.false_eq_true, if_false, not_false_iff, true_and, Bool.not_eq_true]
  by_cases hp : env.statusOk Status.PROCESSING = true
  case neg =>
    -- the PROCESSING update raises: straight to the handler
    simp only [Bool.not_eq_true] at hp
    rw [if_pos hp]
    unfold runHandler
    rw [hd]
    by_cases hfl : env.statusOk Status.FAILED = true
    · simp [hfl, hp]
    · simp only [Bool.not_eq_true] at hfl
      simp [hfl, hp]
  case pos =>
  rw [if_neg (by simp [hp])]
  cases hfi : env.fetchImages with
  | error e2 =>
      simp only []
      unfold runHandler
      rw [hd]
      by_cases hfl : env.statusOk Status.FAILED = true
      · simp [hfl, hp]
      · simp only [Bool.not_eq_true] at hfl
        simp [hfl, hp]
  | ok images =>
  simp only []
  by_cases hemp : images.isEmpty = true
  case pos =>
    rw [if_pos hemp]
    unfold runHandler
    rw [hd]
    by_cases hfl : env.statusOk Status.FAILED = true
    · simp [hfl, hp]
    · simp only [Bool.not_eq_true] at hfl
      simp [hfl, hp]
  case neg =>
  rw [if_neg hemp]
  by_cases hl : env.loadDetectorOk = true
  case neg =>
    simp only [Bool.not_eq_true] at hl
    rw [if_pos (by simp [hl])]
    unfold runHandler
    rw [hd]
    by_cases hfl : env.statusOk Status.FAILED = true
    · simp [hfl, hp]
    · simp only [Bool.not_eq_true] at hfl
      simp [hfl, hp]
  case pos =>
  rw [if_neg (by simp [hl])]
  rcases hcp : chooseProcessing args env images with ⟨res, tp⟩
  have hnoUpd : ∀ s ok, Ev.updateStatus s ok ∉ tp := fun s ok => by
    have h1 := cp_no_updateStatus args env images s ok
    rwa [hcp] at h1
  have hnoS3 : ∀ ok, Ev.saveS3 ok ∉ tp := fun ok => by
    have h1 := cp_no_saveS3 args env images ok
    rwa [hcp] at h1
  have hnoDb : ∀ ok, Ev.saveDb ok ∉ tp := fun ok => by
    have h1 := cp_no_saveDb args env images ok
    rwa [hcp] at h1
  have hwtp : writtenStatuses tp = [] := by
    have h1 := cp_written args env images
    rwa [hcp] at h1
  cases res with
  | error e3 =>
      simp only []
      unfold runHandler
      rw [hd]
      by_cases hfl : env.statusOk Status.FAILED = true
      · simp [hfl, hp, hwtp, hnoUpd, hnoS3, hnoDb]
      · simp only [Bool.not_eq_true] at hfl
        simp [hfl, hp, hwtp, hnoUpd, hnoS3, hnoDb]
  | ok results =>
  simp only [hd, Bool.false_eq_true, if_false]
  by_cases hs3 : env.s3Ok = true
  case neg =>
    simp only [Bool.not_eq_true] at hs3
    rw [hs3]
    rw [if_pos (by simp)]
    unfold runHandler
    rw [hd]
    by_cases hfl : env.statusOk Status.FAILED = true
    · simp [hfl, hp, hs3, hwtp, hnoUpd, hnoS3, hnoDb]
    · simp only [Bool.not_eq_true] at hfl
      simp [hfl, hp, hs3, hwtp, hnoUpd, hnoS3, hnoDb]
  case pos =>
  rw [hs3, if_neg (by simp)]
  by_cases hdb : env.dbOk = true
  case neg =>
    simp only [Bool.not_eq_true] at hdb
    rw [hdb, if_pos (by simp)]
    unfold runHandler
    rw [hd]
    by_cases hfl : env.statusOk Status.FAILED = true
    · simp [hfl, hp, hs3, hdb, hwtp, hnoUpd, hnoS3, hnoDb]
    · simp only [Bool.not_eq_true] at hfl
      simp [hfl, hp, hs3, hdb, hwtp, hnoUpd, hnoS3, hnoDb]
  case pos =>
  rw [hdb, if_neg (by simp)]
  by_cases hdn : env.statusOk Status.DONE = true
  case pos =>
    rw [if_pos hdn]
    simp [hp, hs3, hdb, hwtp, hnoUpd, hnoS3, hnoDb, hfi]
    simpa using hemp
  case neg =>
    simp only [Bool.not_eq_true] at hdn
    rw [if_neg (by simp [hdn])]
    unfold runHandler
    rw [hd]
    by_cases hfl : env.statusOk Status.FAILED = true
    · simp [hfl, hp, hs3, hdb, hdn, hwtp, hnoUpd, hnoS3, hnoDb]
    · simp only [Bool.not_eq_true] at hfl
      simp [hfl, hp, hs3, hdb, hdn, hwtp, hnoUpd, hnoS3, hnoDb]

theorem runModel_dry (args : RunArgs) (env : Env) (hd : args.dry_run = true) :
    (∀ s ok, Ev.updateStatus s ok ∉ (runModel args env).2) ∧
    (∀ ok, Ev.saveS3 ok ∉ (runModel args env).2) ∧
    (∀ ok, Ev.saveDb ok ∉ (runModel args env).2) ∧
    ((runModel args env).1 = .ok 0 → Ev.logResults ∈ (runModel args env).2) := by
  unfold runModel
  cases hf : env.fetchImageset with
  | error e => simp
  | ok op =>
  cases op with
  | none => simp
  | some k =>
  simp only [hd, if_true, not_true, false_and, if_false]
  cases hfi : env.fetchImages with
  | error e2 =>
      simp only []
      unfold runHandler
      rw [hd]
      simp
  | ok images =>
  simp only []
  by_cases hemp : images.isEmpty = true
  case pos =>
    rw [if_pos hemp]
    unfold runHandler
    rw [hd]
    simp
  case neg =>
  rw [if_neg hemp]
  by_cases hl : env.loadDetectorOk = true
  case neg =>
    simp only [Bool.not_eq_true] at hl
    rw [if_pos (by simp [hl])]
    unfold runHandler
    rw [hd]
    simp
  case pos =>
  rw [if_neg (by simp [hl])]
  rcases hcp : chooseProcessing args env images with ⟨res, tp⟩
  have hnoUpd : ∀ s ok, Ev.updateStatus s ok ∉ tp := fun s ok => by
    have h1 := cp_no_updateStatus args env images s ok
    rwa [hcp] at h1
  have hnoS3 : ∀ ok, Ev.saveS3 ok ∉ tp := fun ok => by
    have h1 := cp_no_saveS3 args env images ok
    rwa [hcp] at h1
  have hnoDb : ∀ ok, Ev.saveDb ok ∉ tp := fun ok => by
    have h1 := cp_no_saveDb args env images ok
    rwa [hcp] at h1
  cases res with
  | error e3 =>
      simp only []
      unfold runHandler
      rw [hd]
      simp [hnoUpd, hnoS3, hnoDb]
  | ok results =>
      simp only [hd, if_true]
      simp [hnoUpd, hnoS3, hnoDb]

theorem conv_fold (input : List MDDetection)
    (h : ∀ d ∈ input, d.class_id < 3) (acc : List FpeDetection × MaxConf) :
    input.foldlM convStep acc = .ok
      (acc.1 ++ input.map mdToFpe,
       ⟨((input.filter (fun d => d.class_id = 0)).map (fun d => d.confidence)).foldl
          max acc.2.animal,
        ((input.filter (fun d => d.class_id = 1)).map (fun d => d.confidence)).foldl
          max acc.2.person,
        ((input.filter (fun d => d.class_id = 2)).map (fun d => d.confidence)).foldl
          max acc.2.vehicle⟩) := by
  induction input generalizing acc with
  | nil =>
      simp only [List.foldlM_nil, List.map_nil, List.append_nil, List.filter_nil,
        List.foldl_nil]
      rfl
  | cons d rest ih =>
      have hd3 : d.class_id < 3 := h d (by simp)
      have hrest : ∀ x ∈ rest, x.class_id < 3 := fun x hx => h x (by simp [hx])
      have hcase : d.class_id = 0 ∨ d.class_id = 1 ∨ d.class_id = 2 := by omega
      rcases hcase with h0 | h0 | h0
      · have hstep : convStep acc d
            = .ok (acc.1 ++ [mdToFpe d],
                ⟨max acc.2.animal d.confidence, acc.2.person, acc.2.vehicle⟩) := by
          simp [convStep, mdToFpe, h0, CLASS_NAMES, getConf, setConf]
        rw [List.foldlM_cons, hstep]
        show List.foldlM convStep _ rest = _
        rw [ih hrest]
        simp [h0, List.filter_cons, List.append_assoc]
      · have hstep : convStep acc d
            = .ok (acc.1 ++ [mdToFpe d],
                ⟨acc.2.animal, max acc.2.person d.confidence, acc.2.vehicle⟩) := by
          simp [convStep, mdToFpe, h0, CLASS_NAMES, getConf, setConf]
        rw [List.foldlM_cons, hstep]
        show List.foldlM convStep _ rest = _
        rw [ih hrest]
        simp [h0, List.filter_cons, List.append_assoc]
      · have hstep : convStep acc d
            = .ok (acc.1 ++ [mdToFpe d],
                ⟨acc.2.animal, acc.2.person, max acc.2.vehicle d.confidence⟩) := by
          simp [convStep, mdToFpe, h0, CLASS_NAMES, getConf, setConf]
        rw [List.foldlM_cons, hstep]
        show List.foldlM convStep _ rest = _
        rw [ih hrest]
        simp [h0, List.filter_cons, List.append_assoc]

theorem convert_ok (input : List MDDetection) (h : ∀ d ∈ input, d.class_id < 3) :
    convert_md_detections_to_fpe_format input = .ok
      ⟨input.map mdToFpe,
       ⟨((input.filter (fun d => d.class_id = 0)).map (fun d => d.confidence)).foldl max 0,
        ((input.filter (fun d => d.class_id = 1)).map (fun d => d.confidence)).foldl max 0,
        ((input.filter (fun d => d.class_id = 2)).map (fun d => d.confidence)).foldl
          max 0⟩⟩ := by
  unfold convert_md_detections_to_fpe_format
  rw [conv_fold input h ([], ⟨0, 0, 0⟩)]
  rfl

theorem le_foldl_max (l : List ℚ) (a : ℚ) : a ≤ l.foldl max a := by
  induction l generalizing a with
  | nil => exact le_refl a
  | cons x xs ih => exact le_trans (le_max_left a x) (ih (max a x))

theorem mem_le_foldl_max (l : List ℚ) (a x : ℚ) (hx : x ∈ l) : x ≤ l.foldl max a := by
  induction l generalizing a with
  | nil => cases hx
  | cons y ys ih =>
      rcases List.mem_cons.mp hx with rfl | hx2
      · exact le_trans (le_max_right a x) (le_foldl_max ys (max a x))
      · exact ih (max a y) hx2

theorem foldl_max_eq_or_mem (l : List ℚ) (a : ℚ) :
    l.foldl max a = a ∨ l.foldl max a ∈ l := by
  induction l generalizing a with
  | nil => exact Or.inl rfl
  | cons y ys ih =>
      rw [List.foldl_cons]
      rcases ih (max a y) with h | h
      · rw [h]
        rcases max_choice a y with he | he
        · exact Or.inl he
        · exact Or.inr (by rw [he]; simp)
      · exact Or.inr (List.mem_cons.mpr (Or.inr h))

theorem filter_length_split {α : Type} (p : α → Bool) (l : List α) :
    (l.filter p).length + (l.filter (fun a => !(p a))).length = l.length := by
  induction l with
  | nil => rfl
  | cons x xs ih =>
      simp only [List.filter_cons]
      cases hp : p x <;> simp [hp, ← ih] <;> omega

theorem chunkList_single {α : Type} (b : Nat) (hb : b ≠ 0) (l : List α)
    (hne : l ≠ []) (hlen : l.length ≤ b) : chunkList b l = [l] := by
  cases l with
  | nil => exact absurd rfl hne
  | cons x xs =>
      rw [chunkList]
      simp only [hb, dif_neg, not_false_iff]
      rw [List.take_of_length_le hlen, List.drop_eq_nil_of_le hlen]
      rw [chunkList]
      simp [hb]

theorem runModel_all_ok (args : RunArgs) (env : Env) (images : List Row) (k : Nat)
    (hd : args.dry_run = false) (hf : env.fetchImageset = .ok (some k))
    (hp : env.statusOk Status.PROCESSING = true)
    (hfi : env.fetchImages = .ok images) (hne : images.isEmpty = false)
    (hl : env.loadDetectorOk = true)
    (results : List ProcResult) (tp : List Ev)
    (hcp : chooseProcessing args env images = (.ok results, tp))
    (hs3 : env.s3Ok = true) (hdb : env.dbOk = true)
    (hdn : env.statusOk Status.DONE = true) :
    (runModel args env).1 = .ok 0 ∧
    Ev.updateStatus Status.DONE true ∈ (runModel args env).2 ∧
    writtenStatuses (runModel args env).2 = [Status.PROCESSING, Status.DONE] := by
  have hwtp : writtenStatuses tp = [] := by
    have h1 := cp_written args env images
    rwa [hcp] at h1
  unfold runModel
  rw [hf]
  simp only [hd, Bool.false_eq_true, if_false, not_false_iff, true_and, Bool.not_eq_true]
  rw [if_neg (by simp [hp])]
  rw [hfi]
  simp only [hne, Bool.false_eq_true, if_false]
  rw [if_neg (by simp [hl]), hcp]
  simp only [hd, Bool.false_eq_true, if_false, hs3, hdb]
  rw [if_neg (by simp), if_neg (by simp), if_pos hdn]
  refine ⟨rfl, by simp, ?_⟩
  simp [hp, hwtp]

theorem runModel_procfail (args : RunArgs) (env : Env) (images : List Row) (k : Nat)
    (hd : args.dry_run = false) (hf : env.fetchImageset = .ok (some k))
    (hp : env.statusOk Status.PROCESSING = true)
    (hfi : env.fetchImages = .ok images) (hne : images.isEmpty = false)
    (hl : env.loadDetectorOk = true)
    (e : String) (tp : List Ev)
    (hcp : chooseProcessing args env images = (.error e, tp))
    (hfl : env.statusOk Status.FAILED = true) :
    (runModel args env).1 = .ok 1 ∧
    writtenStatuses (runModel args env).2 = [Status.PROCESSING, Status.FAILED] := by
  have hwtp : writtenStatuses tp = [] := by
    have h1 := cp_written args env images
    rwa [hcp] at h1
  unfold runModel
  rw [hf]
  simp only [hd, Bool.false_eq_true, if_false, not_false_iff, true_and, Bool.not_eq_true]
  rw [if_neg (by simp [hp])]
  rw [hfi]
  simp only [hne, Bool.false_eq_true, if_false]
  rw [if_neg (by simp [hl]), hcp]
  unfold runHandler
  rw [hd]
  simp only [Bool.false_eq_true, if_false, hfl, if_true]
  refine ⟨trivial, ?_⟩
  simp [hp, hwtp]

theorem maxconf_spec (input : List MDDetection) (c : Nat)
    (hconf : ∀ d ∈ input, 0 ≤ d.confidence) :
    ((input.filter (fun d => d.class_id = c)) = [] →
        ((input.filter (fun d => d.class_id = c)).map
          (fun d => d.confidence)).foldl max 0 = 0) ∧
    (∀ d ∈ input, d.class_id = c →
        d.confidence ≤ ((input.filter (fun d => d.class_id = c)).map
          (fun d => d.confidence)).foldl max 0) ∧
    ((input.filter (fun d => d.class_id = c)) ≠ [] →
        ∃ d ∈ input, d.class_id = c ∧
          ((input.filter (fun d => d.class_id = c)).map
            (fun d => d.confidence)).foldl max 0 = d.confidence) := by
  refine ⟨fun hF => by rw [hF]; rfl, ?_, ?_⟩
  · intro d hd hc
    refine mem_le_foldl_max _ 0 d.confidence ?_
    exact List.mem_map.mpr ⟨d, List.mem_filter.mpr ⟨hd, by simp [hc]⟩, rfl⟩
  · intro hF
    rcases foldl_max_eq_or_mem
        ((input.filter (fun d => d.class_id = c)).map (fun d => d.confidence)) 0 with
      h0 | hmem
    · rcases List.exists_mem_of_ne_nil _ hF with ⟨d, hdF⟩
      have hdin := (List.mem_filter.mp hdF).1
      have hdc : d.class_id = c := by
        have := (List.mem_filter.mp hdF).2
        simpa using this
      have hle : d.confidence ≤ 0 := by
        have h1 := mem_le_foldl_max
          ((input.filter (fun d => d.class_id = c)).map (fun d => d.confidence)) 0
          d.confidence (List.mem_map.mpr ⟨d, hdF, rfl⟩)
        rwa [h0] at h1
      have hge := hconf d hdin
      exact ⟨d, hdin, hdc, by rw [h0]; exact le_antisymm hge hle⟩
    · rcases List.mem_map.mp hmem with ⟨d, hdF, hde⟩
      have hdin := (List.mem_filter.mp hdF).1
      have hdc : d.class_id = c := by
        have := (List.mem_filter.mp hdF).2
        simpa using this
      exact ⟨d, hdin, hdc, hde.symm⟩

/-- C10: for every MegaDetector result whose detections all have class ids
among 0 (animal), 1 (person) and 2 (vehicle), and whose confidences are
nonnegative, convert_md_detections_to_fpe_format succeeds; the returned
detections list converts the input detections one for one in the same order
(so it has the same length), and the max_conf mapping — which by construction
has exactly the three keys animal, person and vehicle, the fields of MaxConf —
assigns to each category the maximum confidence among the input detections of
that category, or 0 when that category has no detections. -/
theorem C10_convert_md_format (input : List MDDetection)
    (hclass : ∀ d ∈ input, d.class_id < 3)
    (hconf : ∀ d ∈ input, 0 ≤ d.confidence) :
    ∃ out, convert_md_detections_to_fpe_format input = .ok out ∧
      out.detections = input.map mdToFpe ∧
      out.detections.length = input.length ∧
      (((input.filter (fun d => d.class_id = 0)) = [] → out.max_conf.animal = 0) ∧
        (∀ d ∈ input, d.class_id = 0 → d.confidence ≤ out.max_conf.animal) ∧
        ((input.filter (fun d => d.class_id = 0)) ≠ [] →
          ∃ d ∈ input, d.class_id = 0 ∧ out.max_conf.animal = d.confidence)) ∧
      (((input.filter (fun d => d.class_id = 1)) = [] → out.max_conf.person = 0) ∧
        (∀ d ∈ input, d.class_id = 1 → d.confidence ≤ out.max_conf.person) ∧
        ((input.filter (fun d => d.class_id = 1)) ≠ [] →
          ∃ d ∈ input, d.class_id = 1 ∧ out.max_conf.person = d.confidence)) ∧
      (((input.filter (fun d => d.class_id = 2)) = [] → out.max_conf.vehicle = 0) ∧
        (∀ d ∈ input, d.class_id = 2 → d.confidence ≤ out.max_conf.vehicle) ∧
        ((input.filter (fun d => d.class_id = 2)) ≠ [] →
          ∃ d ∈ input, d.class_id = 2 ∧ out.max_conf.vehicle = d.confidence)) :=
  ⟨_, convert_ok input hclass, rfl, by simp,
    maxconf_spec input 0 hconf, maxconf_spec input 1 hconf, maxconf_spec input 2 hconf⟩

/-- Witness input for the conversion claim: one animal and one person
detection with nonnegative confidences. -/
def mdSample : List MDDetection :=
  [⟨0, 1/2, [1, 2, 3, 4]⟩, ⟨1, 3/4, [5, 6, 7, 8]⟩]

theorem C10_convert_md_format_witness :
    (∀ d ∈ mdSample, d.class_id < 3) ∧ (∀ d ∈ mdSample, 0 ≤ d.confidence) ∧
    (∃ out, convert_md_detections_to_fpe_format mdSample = .ok out ∧
      out.detections = mdSample.map mdToFpe ∧
      out.detections.length = mdSample.length ∧
      (((mdSample.filter (fun d => d.class_id = 0)) = [] → out.max_conf.animal = 0) ∧
        (∀ d ∈ mdSample, d.class_id = 0 → d.confidence ≤ out.max_conf.animal) ∧
        ((mdSample.filter (fun d => d.class_id = 0)) ≠ [] →
          ∃ d ∈ mdSample, d.class_id = 0 ∧ out.max_conf.animal = d.confidence)) ∧
      (((mdSample.filter (fun d => d.class_id = 1)) = [] → out.max_conf.person = 0) ∧
        (∀ d ∈ mdSample, d.class_id = 1 → d.confidence ≤ out.max_conf.person) ∧
        ((mdSample.filter (fun d => d.class_id = 1)) ≠ [] →
          ∃ d ∈ mdSample, d.class_id = 1 ∧ out.max_conf.person = d.confidence)) ∧
      (((mdSample.filter (fun d => d.class_id = 2)) = [] → out.max_conf.vehicle = 0) ∧
        (∀ d ∈ mdSample, d.class_id = 2 → d.confidence ≤ out.max_conf.vehicle) ∧
        ((mdSample.filter (fun d => d.class_id = 2)) ≠ [] →
          ∃ d ∈ mdSample, d.class_id = 2 ∧ out.max_conf.vehicle = d.confidence))) :=
  ⟨by decide, by norm_num [mdSample],
    C10_convert_md_format mdSample (by decide) (by norm_num [mdSample])⟩

/-- A detector oracle that succeeds on every image with an empty result. -/
def detOkAll : String → Except String FpeFormat := fun _ => .ok ⟨[], ⟨0, 0, 0⟩⟩

/-- A detector oracle that raises on every image. -/
def detFailAll : String → Except String FpeFormat := fun _ => .error "boom"

/-- A detector oracle that raises exactly on the image with key k2. -/
def detFailK2 : String → Except String FpeFormat :=
  fun s => if s = "s3://b/k2" then .error "boom2" else .ok ⟨[], ⟨0, 0, 0⟩⟩

/-- Sample image rows. -/
def rowA : Row := ⟨1, "b", "k1"⟩

def rowB : Row := ⟨2, "b", "k2"⟩

def rowC : Row := ⟨3, "b", "k3"⟩

/-- The completion order that keeps futures in submission order. -/
def schedId : List (Nat × Except String ProcResult) →
    List (Nat × Except String ProcResult) := fun l => l

/-- An environment where every collaborator call succeeds. -/
def envAllOk (images : List Row) (det : String → Except String FpeFormat) : Env :=
  ⟨.ok (some 7), fun _ => true, .ok images, true, det, true, true, schedId⟩

/-- An environment whose imageset lookup finds no row. -/
def envNotFound : Env :=
  ⟨.ok none, fun _ => true, .ok [], true, detOkAll, true, true, schedId⟩

/-- Non-dry-run arguments with sequential processing. -/
def argsSeqND : RunArgs := ⟨7, false, none, 100⟩

/-- Non-dry-run arguments with parallel processing. -/
def argsParND (w b : Int) : RunArgs := ⟨7, false, some w, b⟩

/-- Dry-run arguments. -/
def argsDry : RunArgs := ⟨7, true, none, 100⟩

/-- C5: for every invocation of run whose imageset lookup returns no row,
run raises before the try block: it reports the failure as its overall
result (the exception propagates) and its event trace is empty, so no
image fetch, detector load, detect call, status update or persistence
call is attempted. -/
theorem C5_imageset_not_found (args : RunArgs) (env : Env)
    (h : env.fetchImageset = .ok none) :
    (∃ e, (runModel args env).1 = .error e) ∧
    (runModel args env).2 = [] ∧
    (∀ e : Ev, e ∉ (runModel args env).2) := by
  unfold runModel
  rw [h]
  exact ⟨⟨_, rfl⟩, rfl, by simp⟩

theorem C5_imageset_not_found_witness :
    envNotFound.fetchImageset = .ok none ∧
    ((∃ e, (runModel argsSeqND envNotFound).1 = .error e) ∧
      (runModel argsSeqND envNotFound).2 = [] ∧
      (∀ e : Ev, e ∉ (runModel argsSeqND envNotFound).2)) :=
  ⟨rfl, C5_imageset_not_found argsSeqND envNotFound rfl⟩

/-- C4: for every non-dry-run invocation where the imageset exists but its
image list is empty, run returns 1 (nonzero) with statuses PROCESSING then
FAILED written, and the trace shows no detector load, no detect call or
task submission or completion, and no S3 or database persistence call. -/
theorem C4_empty_image_list (args : RunArgs) (env : Env) (k : Nat)
    (hd : args.dry_run = false)
    (hp : env.statusOk Status.PROCESSING = true)
    (hfl : env.statusOk Status.FAILED = true)
    (hf : env.fetchImageset = .ok (some k))
    (hfi : env.fetchImages = .ok []) :
    runModel args env = (.ok 1,
      [.updateStatus .PROCESSING true, .fetchImages, .updateStatus .FAILED true]) ∧
    Ev.loadDetector ∉ (runModel args env).2 ∧
    (∀ id, Ev.detect id ∉ (runModel args env).2) ∧
    (∀ id, Ev.submit id ∉ (runModel args env).2) ∧
    (∀ id ok, Ev.taskDone id ok ∉ (runModel args env).2) ∧
    (∀ ok, Ev.saveS3 ok ∉ (runModel args env).2) ∧
    (∀ ok, Ev.saveDb ok ∉ (runModel args env).2) ∧
    writtenStatuses (runModel args env).2 = [Status.PROCESSING, Status.FAILED] := by
  have hrun : runModel args env = (.ok 1,
      [.updateStatus .PROCESSING true, .fetchImages, .updateStatus .FAILED true]) := by
    unfold runModel
    rw [hf]
    simp only [hd, Bool.false_eq_true, if_false, not_false_iff, true_and,
      Bool.not_eq_true]
    rw [if_neg (by simp [hp])]
    rw [hfi]
    simp only [List.isEmpty_nil, if_true]
    unfold runHandler
    rw [hd]
    simp [hfl, hp]
  rw [hrun]
  refine ⟨rfl, by simp, ?_, ?_, ?_, ?_, ?_, by simp [writtenStatuses]⟩ <;>
    intros <;> simp

theorem C4_empty_image_list_witness :
    argsSeqND.dry_run = false ∧
    (envAllOk [] detOkAll).statusOk Status.PROCESSING = true ∧
    (envAllOk [] detOkAll).statusOk Status.FAILED = true ∧
    (envAllOk [] detOkAll).fetchImageset = .ok (some 7) ∧
    (envAllOk [] detOkAll).fetchImages = .ok [] ∧
    (runModel argsSeqND (envAllOk [] detOkAll) = (.ok 1,
      [.updateStatus .PROCESSING true, .fetchImages, .updateStatus .FAILED true]) ∧
    Ev.loadDetector ∉ (runModel argsSeqND (envAllOk [] detOkAll)).2 ∧
    (∀ id, Ev.detect id ∉ (runModel argsSeqND (envAllOk [] detOkAll)).2) ∧
    (∀ id, Ev.submit id ∉ (runModel argsSeqND (envAllOk [] detOkAll)).2) ∧
    (∀ id ok, Ev.taskDone id ok ∉ (runModel argsSeqND (envAllOk [] detOkAll)).2) ∧
    (∀ ok, Ev.saveS3 ok ∉ (runModel argsSeqND (envAllOk [] detOkAll)).2) ∧
    (∀ ok, Ev.saveDb ok ∉ (runModel argsSeqND (envAllOk [] detOkAll)).2) ∧
    writtenStatuses (runModel argsSeqND (envAllOk [] detOkAll)).2
      = [Status.PROCESSING, Status.FAILED]) :=
  ⟨rfl, rfl, rfl, rfl, rfl,
    C4_empty_image_list argsSeqND (envAllOk [] detOkAll) 7 rfl rfl rfl rfl rfl⟩

/-- C8: for every dry-run invocation of run, no status update call is ever
made (for PROCESSING, DONE or FAILED alike), and neither save_results_to_s3
nor save_results_to_database is called, regardless of the outcomes; when the
run completes its processing, the aggregated results are surfaced to the
caller through logging instead. -/
theorem C8_dry_run_frame (args : RunArgs) (env : Env) (hd : args.dry_run = true) :
    (∀ s ok, Ev.updateStatus s ok ∉ (runModel args env).2) ∧
    (∀ ok, Ev.saveS3 ok ∉ (runModel args env).2) ∧
    (∀ ok, Ev.saveDb ok ∉ (runModel args env).2) ∧
    ((runModel args env).1 = .ok 0 → Ev.logResults ∈ (runModel args env).2) :=
  runModel_dry args env hd

theorem C8_dry_run_frame_witness :
    argsDry.dry_run = true ∧
    ((∀ s ok, Ev.updateStatus s ok ∉ (runModel argsDry (envAllOk [rowA] detOkAll)).2) ∧
      (∀ ok, Ev.saveS3 ok ∉ (runModel argsDry (envAllOk [rowA] detOkAll)).2) ∧
      (∀ ok, Ev.saveDb ok ∉ (runModel argsDry (envAllOk [rowA] detOkAll)).2) ∧
      ((runModel argsDry (envAllOk [rowA] detOkAll)).1 = .ok 0 →
        Ev.logResults ∈ (runModel argsDry (envAllOk [rowA] detOkAll)).2)) :=
  ⟨rfl, C8_dry_run_frame argsDry (envAllOk [rowA] detOkAll) rfl⟩

/-- C9: for every non-dry-run invocation, the statuses durably written
follow the state machine: a run returning 0 (success) writes exactly
PROCESSING then DONE, once each in that order; a run that returns 1 after
the image fetch was reached writes exactly PROCESSING then FAILED; once
PROCESSING has been written, at most one terminal status follows and the
written sequence is one of [PROCESSING], [PROCESSING, DONE],
[PROCESSING, FAILED]; and PENDING is never written. -/
theorem C9_status_state_machine (args : RunArgs) (env : Env)
    (hd : args.dry_run = false) :
    ((runModel args env).1 = .ok 0 →
        writtenStatuses (runModel args env).2 = [Status.PROCESSING, Status.DONE]) ∧
    ((runModel args env).1 = .ok 1 → Ev.fetchImages ∈ (runModel args env).2 →
        writtenStatuses (runModel args env).2 = [Status.PROCESSING, Status.FAILED]) ∧
    (Status.PROCESSING ∈ writtenStatuses (runModel args env).2 →
        writtenStatuses (runModel args env).2 = [Status.PROCESSING] ∨
        writtenStatuses (runModel args env).2 = [Status.PROCESSING, Status.DONE] ∨
        writtenStatuses (runModel args env).2 = [Status.PROCESSING, Status.FAILED]) ∧
    Status.PENDING ∉ writtenStatuses (runModel args env).2 := by
  obtain ⟨h1, h2, h3, _, _⟩ := runModel_nondry args env hd
  simp only [List.mem_cons, List.not_mem_nil, or_false, List.mem_singleton] at h3
  refine ⟨h1, h2, ?_, ?_⟩
  · intro hmem
    rcases h3 with h | h | h | h | h
    · rw [h] at hmem; exact absurd hmem (by simp)
    · rw [h] at hmem; exact absurd hmem (by simp)
    · exact Or.inl h
    · exact Or.inr (Or.inl h)
    · exact Or.inr (Or.inr h)
  · rcases h3 with h | h | h | h | h <;> rw [h] <;> simp

theorem C9_status_state_machine_witness :
    argsSeqND.dry_run = false ∧
    (((runModel argsSeqND (envAllOk [rowA] detOkAll)).1 = .ok 0 →
        writtenStatuses (runModel argsSeqND (envAllOk [rowA] detOkAll)).2
          = [Status.PROCESSING, Status.DONE]) ∧
      ((runModel argsSeqND (envAllOk [rowA] detOkAll)).1 = .ok 1 →
          Ev.fetchImages ∈ (runModel argsSeqND (envAllOk [rowA] detOkAll)).2 →
          writtenStatuses (runModel argsSeqND (envAllOk [rowA] detOkAll)).2
            = [Status.PROCESSING, Status.FAILED]) ∧
      (Status.PROCESSING ∈ writtenStatuses (runModel argsSeqND (envAllOk [rowA] detOkAll)).2 →
          writtenStatuses (runModel argsSeqND (envAllOk [rowA] detOkAll)).2
            = [Status.PROCESSING] ∨
          writtenStatuses (runModel argsSeqND (envAllOk [rowA] detOkAll)).2
            = [Status.PROCESSING, Status.DONE] ∨
          writtenStatuses (runModel argsSeqND (envAllOk [rowA] detOkAll)).2
            = [Status.PROCESSING, Status.FAILED]) ∧
      Status.PENDING ∉ writtenStatuses (runModel argsSeqND (envAllOk [rowA] detOkAll)).2) :=
  ⟨rfl, C9_status_state_machine argsSeqND (envAllOk [rowA] detOkAll) rfl⟩

/-- C3: in every non-dry run, a durable DONE write happens only if the
fetched image list was non-empty and both the S3 write and the database
write succeeded (processing having completed to reach that point); and if
either persistence call fails, DONE is never written and the FAILED update
is issued instead (durably written exactly when that update succeeds). -/
theorem C3_done_only_after_persistence (args : RunArgs) (env : Env)
    (hd : args.dry_run = false) :
    (Ev.updateStatus Status.DONE true ∈ (runModel args env).2 →
        env.s3Ok = true ∧ env.dbOk = true ∧
        ∃ l, env.fetchImages = .ok l ∧ l.isEmpty = false) ∧
    ((Ev.saveS3 false ∈ (runModel args env).2 ∨
        Ev.saveDb false ∈ (runModel args env).2) →
        Ev.updateStatus Status.DONE true ∉ (runModel args env).2 ∧
        Ev.updateStatus Status.FAILED (env.statusOk Status.FAILED)
          ∈ (runModel args env).2) := by
  obtain ⟨_, _, _, h4, h5⟩ := runModel_nondry args env hd
  exact ⟨h4, h5⟩

theorem C3_done_only_after_persistence_witness :
    argsSeqND.dry_run = false ∧
    ((Ev.updateStatus Status.DONE true ∈ (runModel argsSeqND (envAllOk [rowA] detOkAll)).2 →
        (envAllOk [rowA] detOkAll).s3Ok = true ∧
        (envAllOk [rowA] detOkAll).dbOk = true ∧
        ∃ l, (envAllOk [rowA] detOkAll).fetchImages = .ok l ∧ l.isEmpty = false) ∧
      ((Ev.saveS3 false ∈ (runModel argsSeqND (envAllOk [rowA] detOkAll)).2 ∨
          Ev.saveDb false ∈ (runModel argsSeqND (envAllOk [rowA] detOkAll)).2) →
          Ev.updateStatus Status.DONE true ∉ (runModel argsSeqND (envAllOk [rowA] detOkAll)).2 ∧
          Ev.updateStatus Status.FAILED ((envAllOk [rowA] detOkAll).statusOk Status.FAILED)
            ∈ (runModel argsSeqND (envAllOk [rowA] detOkAll)).2)) :=
  ⟨rfl, C3_done_only_after_persistence argsSeqND (envAllOk [rowA] detOkAll) rfl⟩

/-- C6: for every invocation of run with workers unset (None) or
non-positive, the processing dispatch is exactly
process_images_in_sequence, which walks the fetched image list one image
at a time in source order with no batching; when it returns a list, the
results correspond positionally to the input (outcome i is the successful
process_image of image i) and the trace is one detect call per image in
source order. -/
theorem C6_sequential_in_order (args : RunArgs) (env : Env) (images : List Row)
    (hw : args.workers = none ∨ ∃ w, args.workers = some w ∧ w ≤ 0) :
    chooseProcessing args env images = process_images_in_sequence env.det images ∧
    (∀ l, (process_images_in_sequence env.det images).1 = .ok l →
        images.map (process_image env.det) = l.map Except.ok ∧
        images.length = l.length ∧
        (∀ i (hi : i < images.length) (hi2 : i < l.length),
          process_image env.det (images.get ⟨i, hi⟩) = .ok (l.get ⟨i, hi2⟩)) ∧
        (process_images_in_sequence env.det images).2
          = images.map (fun r => Ev.detect r.id)) := by
  constructor
  · unfold chooseProcessing
    rcases hw with hn | ⟨w, hsw, hle⟩
    · rw [hn]
    · rw [hsw]
      simp [hle]
  · intro l hl
    have hmap := seq_ok_map env.det images l hl
    have hlen : images.length = l.length := by
      have := congrArg List.length hmap
      simpa using this
    refine ⟨hmap, hlen, ?_, seq_ok_trace env.det images l hl⟩
    intro i hi hi2
    have hq : (images.map (process_image env.det))[i]? = (l.map Except.ok)[i]? := by
      rw [hmap]
    rw [List.getElem?_map, List.getElem?_map, List.getElem?_eq_getElem hi,
      List.getElem?_eq_getElem hi2] at hq
    simp only [Option.map_some'] at hq
    simpa [List.get_eq_getElem] using Option.some.inj hq

theorem C6_sequential_in_order_witness :
    (argsSeqND.workers = none ∨ ∃ w, argsSeqND.workers = some w ∧ w ≤ 0) ∧
    (chooseProcessing argsSeqND (envAllOk [rowA, rowB] detOkAll) [rowA, rowB]
        = process_images_in_sequence (envAllOk [rowA, rowB] detOkAll).det [rowA, rowB] ∧
      (∀ l, (process_images_in_sequence (envAllOk [rowA, rowB] detOkAll).det
            [rowA, rowB]).1 = .ok l →
          [rowA, rowB].map (process_image (envAllOk [rowA, rowB] detOkAll).det)
            = l.map Except.ok ∧
          [rowA, rowB].length = l.length ∧
          (∀ i (hi : i < [rowA, rowB].length) (hi2 : i < l.length),
            process_image (envAllOk [rowA, rowB] detOkAll).det
                ([rowA, rowB].get ⟨i, hi⟩) = .ok (l.get ⟨i, hi2⟩)) ∧
          (process_images_in_sequence (envAllOk [rowA, rowB] detOkAll).det
              [rowA, rowB]).2
            = [rowA, rowB].map (fun r => Ev.detect r.id))) :=
  ⟨Or.inl rfl,
    C6_sequential_in_order argsSeqND (envAllOk [rowA, rowB] detOkAll) [rowA, rowB]
      (Or.inl rfl)⟩

/-- C7: for every parallel invocation (workers w > 0, batch size b >= 1)
over a non-empty image list, run clamps the effective worker count to
min(w, N) and batch size to B = min(b, N); the images are partitioned by
the batch loop into consecutive contiguous chunks whose concatenation is
the input, each of size at most B, every chunk except possibly the last of
size exactly B, and exactly ceil(N / min(b, N)) chunks in all; and in the
event trace each batch is fully drained before the next batch starts:
every task of batch i completes before any task of batch i+1 is
submitted, for any completion order of the pool. -/
theorem C7_batch_schedule (args : RunArgs) (env : Env) (images : List Row)
    (w : Int) (hw : args.workers = some w) (hwpos : 0 < w)
    (hb : 1 ≤ args.batch_size) (hne : images ≠ [])
    (hsched : ∀ fl, List.Perm (env.sched fl) fl)
    (B : Int) (hB : B = min args.batch_size (images.length : Int))
    (cs : List (List Row)) (hcs : cs = chunkList B.toNat images) :
    chooseProcessing args env images
      = process_images_in_parallel env.det env.sched images
          (min w (images.length : Int)) B ∧
    cs.flatten = images ∧
    (∀ c ∈ cs, c.length ≤ B.toNat ∧ c ≠ []) ∧
    (∀ i, i + 1 < cs.length → (cs.getD i []).length = B.toNat) ∧
    cs.length = (images.length + B.toNat - 1) / B.toNat ∧
    (∀ i, i + 1 < cs.length →
        ∃ pre post,
          (process_images_in_parallel env.det env.sched images
              (min w (images.length : Int)) B).2 = pre ++ post ∧
          (∀ r ∈ cs.getD i [], ∃ ok, Ev.taskDone r.id ok ∈ pre) ∧
          (∀ r ∈ cs.getD (i + 1) [], Ev.submit r.id ∈ post)) := by
  have hn1 : 1 ≤ (images.length : Int) := by
    have := List.length_pos.mpr hne
    omega
  have hBpos : 1 ≤ B := by rw [hB]; exact le_min hb hn1
  have hBn : B.toNat ≠ 0 := by omega
  refine ⟨?_, ?_, ?_, ?_, ?_, ?_⟩
  · unfold chooseProcessing
    rw [hw]
    simp only [hB]
    rw [if_neg (by omega)]
  · rw [hcs]
    exact chunkList_flatten B.toNat hBn images
  · intro c hc
    rw [hcs] at hc
    exact mem_chunkList B.toNat hBn images c hc
  · intro i hi
    rw [hcs] at hi ⊢
    exact chunkList_getD_length B.toNat hBn images i hi
  · rw [hcs]
    exact chunkList_length B.toNat hBn images
  · intro i hi
    have hpair := parallel_ok env.det env.sched images
      (min w (images.length : Int)) B hBpos
    have htr : (process_images_in_parallel env.det env.sched images
        (min w (images.length : Int)) B).2
        = (cs.map (fun c => (runBatch env.det env.sched c).2)).flatten := by
      rw [hpair, hcs]
    have hii : i < cs.length := by omega
    have hsplit : (cs.map (fun c => (runBatch env.det env.sched c).2)).flatten
        = ((cs.take (i + 1)).map (fun c => (runBatch env.det env.sched c).2)).flatten
          ++ ((cs.drop (i + 1)).map (fun c => (runBatch env.det env.sched c).2)).flatten := by
      conv_lhs => rw [← List.take_append_drop (i + 1) cs]
      rw [List.map_append, List.flatten_append]
    refine ⟨((cs.take (i + 1)).map (fun c => (runBatch env.det env.sched c).2)).flatten,
      ((cs.drop (i + 1)).map (fun c => (runBatch env.det env.sched c).2)).flatten,
      by rw [htr, hsplit], ?_, ?_⟩
    · intro r hr
      rw [List.getD_eq_getElem cs [] hii] at hr
      have h1 : i < (cs.take (i + 1)).length := by
        simp only [List.length_take]
        omega
      have hctake : cs.get ⟨i, hii⟩ ∈ cs.take (i + 1) := by
        have h2 : (cs.take (i + 1)).get ⟨i, h1⟩ = cs.get ⟨i, hii⟩ := by
          rw [List.get_eq_getElem, List.get_eq_getElem]
          exact @List.getElem_take (List Row) cs (i + 1) i h1
        rw [← h2]
        exact (cs.take (i + 1)).get_mem i h1
      have hr2 : r ∈ cs.get ⟨i, hii⟩ := by
        rw [List.get_eq_getElem]
        exact hr
      rcases runBatch_taskDone_mem env.det env.sched hsched (cs.get ⟨i, hii⟩) r hr2 with
        ⟨ok, hok⟩
      refine ⟨ok, List.mem_flatten.mpr
        ⟨(runBatch env.det env.sched (cs.get ⟨i, hii⟩)).2,
          List.mem_map.mpr ⟨cs.get ⟨i, hii⟩, hctake, rfl⟩, hok⟩⟩
    · intro r hr
      rw [List.getD_eq_getElem cs [] hi] at hr
      have h1 : 0 < (cs.drop (i + 1)).length := by
        simp only [List.length_drop]
        omega
      have hcdrop : cs.get ⟨i + 1, hi⟩ ∈ cs.drop (i + 1) := by
        have h2 : (cs.drop (i + 1)).get ⟨0, h1⟩ = cs.get ⟨i + 1, hi⟩ := by
          rw [List.get_eq_getElem, List.get_eq_getElem]
          exact List.getElem_drop cs
        rw [← h2]
        exact (cs.drop (i + 1)).get_mem 0 h1
      have hr2 : r ∈ cs.get ⟨i + 1, hi⟩ := by
        rw [List.get_eq_getElem]
        exact hr
      exact List.mem_flatten.mpr
        ⟨(runBatch env.det env.sched (cs.get ⟨i + 1, hi⟩)).2,
          List.mem_map.mpr ⟨cs.get ⟨i + 1, hi⟩, hcdrop, rfl⟩,
          runBatch_submit_mem env.det env.sched (cs.get ⟨i + 1, hi⟩) r hr2⟩

/-- Witness image list: three rows. -/
def imagesW : List Row := [rowA, rowB, rowC]

/-- Witness chunk list for batch size 2 over the three rows. -/
def csW : List (List Row) := chunkList ((2 : Int).toNat) imagesW

theorem C7_batch_schedule_witness :
    (argsParND 2 2).workers = some 2 ∧ (0 : Int) < 2 ∧
    (1 : Int) ≤ (argsParND 2 2).batch_size ∧ imagesW ≠ [] ∧
    (∀ fl, List.Perm ((envAllOk imagesW detOkAll).sched fl) fl) ∧
    (2 : Int) = min (argsParND 2 2).batch_size (imagesW.length : Int) ∧
    csW = chunkList ((2 : Int).toNat) imagesW ∧
    (chooseProcessing (argsParND 2 2) (envAllOk imagesW detOkAll) imagesW
        = process_images_in_parallel (envAllOk imagesW detOkAll).det
            (envAllOk imagesW detOkAll).sched imagesW
            (min 2 (imagesW.length : Int)) 2 ∧
      csW.flatten = imagesW ∧
      (∀ c ∈ csW, c.length ≤ (2 : Int).toNat ∧ c ≠ []) ∧
      (∀ i, i + 1 < csW.length → (csW.getD i []).length = (2 : Int).toNat) ∧
      csW.length = (imagesW.length + (2 : Int).toNat - 1) / (2 : Int).toNat ∧
      (∀ i, i + 1 < csW.length →
          ∃ pre post,
            (process_images_in_parallel (envAllOk imagesW detOkAll).det
                (envAllOk imagesW detOkAll).sched imagesW
                (min 2 (imagesW.length : Int)) 2).2 = pre ++ post ∧
            (∀ r ∈ csW.getD i [], ∃ ok, Ev.taskDone r.id ok ∈ pre) ∧
            (∀ r ∈ csW.getD (i + 1) [], Ev.submit r.id ∈ post))) :=
  ⟨rfl, by decide, by decide, by decide, fun fl => List.Perm.refl fl, by decide, rfl,
    C7_batch_schedule (argsParND 2 2) (envAllOk imagesW detOkAll) imagesW 2 rfl
      (by decide) (by decide) (by decide) (fun fl => List.Perm.refl fl) 2 (by decide)
      csW rfl⟩

/-- C1 counterexample: with a single image whose detect call raises, the
parallel batch step returns an empty outcome list — zero outcomes for one
dispatched image, so the failed task contributed no outcome — and the
sequential step returns no outcome list at all: the exception propagates
instead. -/
theorem C1_counterexample :
    (process_images_in_parallel detFailAll schedId [rowA] 1 1).1
      = .ok ([] : List ProcResult) ∧
    ([] : List ProcResult).length ≠ [rowA].length ∧
    (process_images_in_sequence detFailAll [rowA]).1 = .error "boom" := by
  refine ⟨?_, by decide, by decide⟩
  rw [parallel_ok detFailAll schedId [rowA] 1 1 (by norm_num)]
  rw [chunkList_single ((1 : Int).toNat) (by decide) [rowA] (by decide) (by decide)]
  decide

/-- C1 (amended): the outcome list returned by the parallel batch step has
one outcome per dispatched task that succeeded — a task that raises is
drained but contributes no outcome — so its length equals the number of
images whose detect call succeeds, for every worker count, every batch
size at least 1 and every completion order; the sequential step returns
one outcome per image exactly when all calls succeed, and returns no list
(the exception propagates) whenever some call fails. -/
theorem C1_amended_outcome_count (det : String → Except String FpeFormat)
    (sched : List (Nat × Except String ProcResult) → List (Nat × Except String ProcResult))
    (hsched : ∀ fl, List.Perm (sched fl) fl)
    (images : List Row) (w b : Int) (hb : 1 ≤ b) :
    (∃ res, (process_images_in_parallel det sched images w b).1 = .ok res ∧
        res.length = (images.filter (fun r => (process_image det r).isOk)).length) ∧
    (∀ l, (process_images_in_sequence det images).1 = .ok l →
        l.length = images.length) ∧
    ((∃ r ∈ images, (process_image det r).isOk = false) →
        (process_images_in_sequence det images).1.isOk = false) := by
  refine ⟨parallel_length det sched hsched images w b hb, ?_,
    seq_error_of_exists det images⟩
  intro l hl
  have hmap := seq_ok_map det images l hl
  have := congrArg List.length hmap
  simpa using this.symm

theorem C1_amended_outcome_count_witness :
    (∀ fl, List.Perm (schedId fl) fl) ∧ (1 : Int) ≤ 1 ∧
    ((∃ res, (process_images_in_parallel detOkAll schedId [rowA] 1 1).1 = .ok res ∧
        res.length = ([rowA].filter (fun r => (process_image detOkAll r).isOk)).length) ∧
      (∀ l, (process_images_in_sequence detOkAll [rowA]).1 = .ok l →
          l.length = [rowA].length) ∧
      ((∃ r ∈ [rowA], (process_image detOkAll r).isOk = false) →
          (process_images_in_sequence detOkAll [rowA]).1.isOk = false)) :=
  ⟨fun fl => List.Perm.refl fl, by norm_num,
    C1_amended_outcome_count detOkAll schedId (fun fl => List.Perm.refl fl)
      [rowA] 1 1 (by norm_num)⟩

/-- C2 counterexample: with three images of which exactly the second fails,
the parallel batch step returns only the two Success outcomes (image ids 1
and 3) — two outcomes, not three: no Failure outcome is recorded anywhere —
and in sequential mode the failure is not isolated at all: the exception
propagates, the run aborts with exit code 1 and the statuses written are
PROCESSING then FAILED rather than reaching DONE. -/
theorem C2_counterexample :
    ((process_images_in_parallel detFailK2 schedId [rowA, rowB, rowC] 2 3).1).map
        (fun l => l.map (fun p => p.image_id)) = .ok [1, 3] ∧
    ((process_images_in_parallel detFailK2 schedId [rowA, rowB, rowC] 2 3).1).map
        (fun l => l.length) = .ok 2 ∧
    (2 : Nat) ≠ 3 ∧
    (process_images_in_sequence detFailK2 [rowA, rowB, rowC]).1 = .error "boom2" ∧
    (runModel argsSeqND (envAllOk [rowA, rowB, rowC] detFailK2)).1 = .ok 1 ∧
    writtenStatuses (runModel argsSeqND (envAllOk [rowA, rowB, rowC] detFailK2)).2
      = [Status.PROCESSING, Status.FAILED] := by
  have hchunk := chunkList_single ((3 : Int).toNat) (by decide)
    [rowA, rowB, rowC] (by decide) (by decide)
  have hpar := parallel_ok detFailK2 schedId [rowA, rowB, rowC] 2 3 (by norm_num)
  refine ⟨?_, ?_, by decide, by decide, by decide, by decide⟩ <;>
    rw [hpar, hchunk] <;> decide

/-- C2 (amended): with exactly one failing detect call among N images, in
parallel mode the batch step returns the N-1 Success outcomes only — the
failure is logged and dropped, no Failure outcome is recorded in the
returned list — the batch and the run continue, and the run still reaches
DONE provided persistence succeeds; in sequential mode the failure is not
isolated: the exception propagates, aborting the run, which ends FAILED. -/
theorem C2_amended_failure_isolation (argsP argsS : RunArgs) (env : Env)
    (images : List Row) (w : Int) (k : Nat)
    (hPd : argsP.dry_run = false) (hPw : argsP.workers = some w) (hwpos : 0 < w)
    (hb : 1 ≤ argsP.batch_size)
    (hSd : argsS.dry_run = false) (hSw : argsS.workers = none)
    (hf : env.fetchImageset = .ok (some k))
    (hp : env.statusOk Status.PROCESSING = true)
    (hfl : env.statusOk Status.FAILED = true)
    (hdn : env.statusOk Status.DONE = true)
    (hfi : env.fetchImages = .ok images) (hl : env.loadDetectorOk = true)
    (hs3 : env.s3Ok = true) (hdb : env.dbOk = true)
    (hsched : ∀ fl, List.Perm (env.sched fl) fl)
    (hone : (images.filter (fun r => !(process_image env.det r).isOk)).length = 1) :
    (∃ res, (process_images_in_parallel env.det env.sched images w
        argsP.batch_size).1 = .ok res ∧ res.length = images.length - 1) ∧
    ((runModel argsP env).1 = .ok 0 ∧
      Ev.updateStatus Status.DONE true ∈ (runModel argsP env).2 ∧
      writtenStatuses (runModel argsP env).2 = [Status.PROCESSING, Status.DONE]) ∧
    ((process_images_in_sequence env.det images).1.isOk = false ∧
      (runModel argsS env).1 = .ok 1 ∧
      writtenStatuses (runModel argsS env).2 = [Status.PROCESSING, Status.FAILED]) := by
  have himgne : images ≠ [] := by
    intro hnil
    rw [hnil] at hone
    simp at hone
  have hne2 : images.isEmpty = false := by
    cases images with
    | nil => exact absurd rfl himgne
    | cons x xs => rfl
  have hn1 : 1 ≤ (images.length : Int) := by
    have := List.length_pos.mpr himgne
    omega
  have hsplit : (images.filter (fun r => (process_image env.det r).isOk)).length
      + (images.filter (fun r => !(process_image env.det r).isOk)).length
      = images.length :=
    filter_length_split (fun r => (process_image env.det r).isOk) images
  have hfilter : (images.filter (fun r => (process_image env.det r).isOk)).length
      = images.length - 1 := by omega
  refine ⟨?_, ?_, ?_⟩
  · obtain ⟨res, hres, hlen⟩ :=
      parallel_length env.det env.sched hsched images w argsP.batch_size hb
    exact ⟨res, hres, by rw [hlen, hfilter]⟩
  · have hbmin : 1 ≤ min argsP.batch_size (images.length : Int) := le_min hb hn1
    have hpar := parallel_ok env.det env.sched images
      (min w (images.length : Int)) (min argsP.batch_size (images.length : Int)) hbmin
    have hcp : chooseProcessing argsP env images
        = ((.ok (((chunkList (min argsP.batch_size (images.length : Int)).toNat
              images).map (fun c => (runBatch env.det env.sched c).1)).flatten)),
           ((chunkList (min argsP.batch_size (images.length : Int)).toNat
              images).map (fun c => (runBatch env.det env.sched c).2)).flatten) := by
      unfold chooseProcessing
      rw [hPw]
      simp only []
      rw [if_neg (by omega)]
      exact hpar
    exact runModel_all_ok argsP env images k hPd hf hp hfi hne2 hl _ _ hcp hs3 hdb hdn
  · have hfail : ∃ r ∈ images, (process_image env.det r).isOk = false := by
      have hFne : images.filter (fun r => !(process_image env.det r).isOk) ≠ [] := by
        intro hnil
        rw [hnil] at hone
        simp at hone
      rcases List.exists_mem_of_ne_nil _ hFne with ⟨r, hrF⟩
      refine ⟨r, (List.mem_filter.mp hrF).1, ?_⟩
      have := (List.mem_filter.mp hrF).2
      simpa using this
    have hseqfail := seq_error_of_exists env.det images hfail
    have hcps : chooseProcessing argsS env images
        = process_images_in_sequence env.det images := by
      unfold chooseProcessing
      rw [hSw]
    refine ⟨hseqfail, ?_⟩
    rcases hseq : process_images_in_sequence env.det images with ⟨res2, tp2⟩
    cases res2 with
    | ok lres =>
        rw [hseq] at hseqfail
        exact absurd hseqfail (by simp [Except.isOk, Except.toBool])
    | error e =>
        exact runModel_procfail argsS env images k hSd hf hp hfi hne2 hl e tp2
          (hcps.trans hseq) hfl

theorem C2_amended_failure_isolation_witness :
    (argsParND 2 2).dry_run = false ∧ (argsParND 2 2).workers = some 2 ∧
    (0 : Int) < 2 ∧ (1 : Int) ≤ (argsParND 2 2).batch_size ∧
    argsSeqND.dry_run = false ∧ argsSeqND.workers = none ∧
    (envAllOk imagesW detFailK2).fetchImageset = .ok (some 7) ∧
    (envAllOk imagesW detFailK2).statusOk Status.PROCESSING = true ∧
    (envAllOk imagesW detFailK2).statusOk Status.FAILED = true ∧
    (envAllOk imagesW detFailK2).statusOk Status.DONE = true ∧
    (envAllOk imagesW detFailK2).fetchImages = .ok imagesW ∧
    (envAllOk imagesW detFailK2).loadDetectorOk = true ∧
    (envAllOk imagesW detFailK2).s3Ok = true ∧
    (envAllOk imagesW detFailK2).dbOk = true ∧
    (∀ fl, List.Perm ((envAllOk imagesW detFailK2).sched fl) fl) ∧
    (imagesW.filter
      (fun r => !(process_image (envAllOk imagesW detFailK2).det r).isOk)).length = 1 ∧
    ((∃ res, (process_images_in_parallel (envAllOk imagesW detFailK2).det
        (envAllOk imagesW detFailK2).sched imagesW 2
        (argsParND 2 2).batch_size).1 = .ok res ∧ res.length = imagesW.length - 1) ∧
      ((runModel (argsParND 2 2) (envAllOk imagesW detFailK2)).1 = .ok 0 ∧
        Ev.updateStatus Status.DONE true
          ∈ (runModel (argsParND 2 2) (envAllOk imagesW detFailK2)).2 ∧
        writtenStatuses (runModel (argsParND 2 2) (envAllOk imagesW detFailK2)).2
          = [Status.PROCESSING, Status.DONE]) ∧
      ((process_images_in_sequence (envAllOk imagesW detFailK2).det imagesW).1.isOk
          = false ∧
        (runModel argsSeqND (envAllOk imagesW detFailK2)).1 = .ok 1 ∧
        writtenStatuses (runModel argsSeqND (envAllOk imagesW detFailK2)).2
          = [Status.PROCESSING, Status.FAILED])) :=
  ⟨rfl, rfl, by decide, by decide, rfl, rfl, rfl, rfl, rfl, rfl, rfl, rfl, rfl, rfl,
    fun fl => List.Perm.refl fl, by decide,
    C2_amended_failure_isolation (argsParND 2 2) argsSeqND
      (envAllOk imagesW detFailK2) imagesW 2 7 rfl rfl (by decide) (by decide)
      rfl rfl rfl rfl rfl rfl rfl rfl rfl rfl (fun fl => List.Perm.refl fl)
      (by decide)⟩

end FpePii
